import Mathlib

/-!
Shallow embedding of the MTM watcher (`src/app.py`).

Strings are modelled as Lean `String` (lists of characters); Python floats
are modelled as exact rationals `ℚ` (every numeric literal appearing in the
program and in the claims is exactly representable, and all comparisons and
arithmetic performed by the program on those values agree with IEEE doubles
at the inputs considered here).  Python's whitespace classes (`str.strip`,
`\s`, `str.splitlines`) are modelled on their ASCII fragment, which covers
every input the program can meet in the claims.
-/

namespace MTM

attribute [local semireducible] Rat.add Rat.mul Rat.inv Rat.sub Rat.ofScientific

set_option maxRecDepth 100000

/-- ASCII fragment of Python's whitespace class (`str.strip`, regex `\s`). -/
def isPySpace (c : Char) : Bool :=
  c = ' ' || c = '\t' || c = '\n' || c = '\r' || c = '\x0b' || c = '\x0c'

/-- ASCII fragment of the line separators recognised by `str.splitlines`. -/
def isLineSep (c : Char) : Bool :=
  c = '\n' || c = '\r' || c = '\x0b' || c = '\x0c'

/-- `str.lstrip()` on a character list. -/
def lstripL (cs : List Char) : List Char := cs.dropWhile isPySpace

/-- `str.rstrip()` on a character list: trailing whitespace removed. -/
def rstripL : List Char → List Char
  | [] => []
  | c :: t =>
    match rstripL t with
    | [] => if isPySpace c then [] else [c]
    | r2 :: rs => c :: r2 :: rs

/-- `str.strip()` on a character list. -/
def stripL (cs : List Char) : List Char := rstripL (lstripL cs)

/-- `str.strip()`. -/
def pyStrip (s : String) : String := ⟨stripL s.data⟩

/-- `re.sub(r"\s+", " ", ·)` on a character list: every maximal run of
whitespace characters is replaced by a single space.  The flag records
whether the previous character was whitespace. -/
def collapseWs : List Char → Bool → List Char
  | [], _ => []
  | c :: cs, prevWs =>
    if isPySpace c then
      if prevWs then collapseWs cs true else ' ' :: collapseWs cs true
    else c :: collapseWs cs false

/-- `re.sub(r"\s+", " ", ·)` on a character list. -/
def collapseL (cs : List Char) : List Char := collapseWs cs false

/-- `str.splitlines()` on a character list: split at `\n`, `\r\n`, `\r`,
`\x0b`, `\x0c`; a trailing line terminator does not produce a final empty
line, and the empty string yields no lines. -/
def splitlinesL : List Char → List (List Char)
  | [] => []
  | '\r' :: '\n' :: rest => [] :: splitlinesL rest
  | c :: rest =>
    if isLineSep c then [] :: splitlinesL rest
    else
      match splitlinesL rest with
      | [] => [[c]]
      | l :: ls => (c :: l) :: ls

/-- `"\n".join(·)` on character lists. -/
def joinNlL : List (List Char) → List Char
  | [] => []
  | [l] => l
  | l :: ls => l ++ '\n' :: joinNlL ls

/-- The line list built inside `clean_address_block`:
`[re.sub(r"\s+", " ", ln.strip()) for ln in text.splitlines()]` followed by
`[ln for ln in lines if ln]`. -/
def cleanLines (s : String) : List (List Char) :=
  ((splitlinesL s.data).map (fun ln => collapseL (stripL ln))).filter
    (fun l => !l.isEmpty)

/-- `clean_address_block` from `src/app.py`: strips each line, collapses
internal whitespace runs to single spaces, drops blank lines, rejoins with
newlines; the empty string short-circuits to the empty string. -/
def clean_address_block (s : String) : String :=
  if s = "" then "" else ⟨joinNlL (cleanLines s)⟩

/-- ASCII fragment of the regex word class `\w` (used for `\b`). -/
def isWordChar (c : Char) : Bool := c.isAlphanum || c = '_'

/-- The alternation `(W[Ii]|M[Nn]|I[Ll])` of the city regex: the first
letter of the state token must be upper case, the second letter may be
either case. -/
def stateTok (c1 c2 : Char) : Bool :=
  (c1 = 'W' && (c2 = 'I' || c2 = 'i')) ||
  (c1 = 'M' && (c2 = 'N' || c2 = 'n')) ||
  (c1 = 'I' && (c2 = 'L' || c2 = 'l'))

/-- A state token at the head of the list, followed by a word boundary
(the token's last character is a letter, so `\b` holds iff the next
character is absent or not a word character). -/
def tokWithBoundary : List Char → Bool
  | [c1, c2] => stateTok c1 c2
  | c1 :: c2 :: c3 :: _ => stateTok c1 c2 && !isWordChar c3
  | _ => false

/-- Whether the regex `^(.*)\s+(W[Ii]|M[Nn]|I[Ll])\b` can match with
group 1 of length `i`: position `i` starts a non-empty whitespace run and
the run is followed by a state token at a word boundary (the token's first
character is not whitespace, so `\s+` must consume the whole run). -/
def splitOk (cs : List Char) (i : Nat) : Bool :=
  match cs.drop i with
  | [] => false
  | c :: rest => isPySpace c && tokWithBoundary (rest.dropWhile isPySpace)

/-- Length of group 1 in `re.search(r"^(.*)\s+(W[Ii]|M[Nn]|I[Ll])\b", s)`:
`(.*)` is greedy, so the longest admissible group-1 length wins. -/
def bestSplit (cs : List Char) : Option Nat :=
  (List.range (cs.length + 1)).reverse.find? (fun i => splitOk cs i)

/-- Python `str.title()` (ASCII letters): a letter is upper-cased when the
previous character is not a letter and lower-cased otherwise. -/
def titleAux : List Char → Bool → List Char
  | [], _ => []
  | c :: cs, prevAlpha =>
    if c.isAlpha then
      (if prevAlpha then c.toLower else c.toUpper) :: titleAux cs true
    else c :: titleAux cs false

/-- Python `str.title()`. -/
def pyTitle (s : String) : String := ⟨titleAux s.data false⟩

/-- One iteration of the loop body of `extract_city`: collapse whitespace,
run the regex; on a match take group 1 stripped, reject it if it contains a
digit (`continue`), otherwise return it title-cased. -/
def lineCity (ln : List Char) : Option String :=
  let s := collapseL ln
  match bestSplit s with
  | none => none
  | some i =>
    let city := stripL (s.take i)
    if city.any Char.isDigit then none
    else some (pyTitle ⟨city⟩)

/-- `extract_city` from `src/app.py`: strip every line, drop blank lines,
then scan the lines bottom-up and return the first title-cased digit-free
regex hit, or `none`. -/
def extract_city (addr_block : String) : Option String :=
  let lines := ((splitlinesL addr_block.data).map stripL).filter
    (fun l => !l.isEmpty)
  lines.reverse.findSome? lineCity

/-- Value of a digit string, most significant first. -/
def digitsToNat (ds : List Char) : Nat :=
  ds.foldl (fun a c => 10 * a + (c.toNat - 48)) 0

/-- Exponent part of a Python float literal: optional sign followed by a
non-empty digit string consuming the whole remainder. -/
def parseExp (cs : List Char) : Option Int :=
  match cs with
  | [] => none
  | c :: rest =>
    let p : Int × List Char :=
      if c = '+' then (1, rest)
      else if c = '-' then (-1, rest)
      else (1, c :: rest)
    if !p.2.isEmpty && p.2.all Char.isDigit then
      some (p.1 * (digitsToNat p.2 : Int))
    else none

/-- Unsigned part of Python `float(·)` on finite decimal literals:
`digits [. digits] [e|E exp]`, `. digits [e|E exp]`, or `digits . [e|E exp]`
(`inf`, `nan` and digit-group underscores are not modelled; no input of
this program uses them). -/
def pyFloatMag (cs : List Char) : Option ℚ :=
  let s1 := cs.span Char.isDigit
  let r2 : List Char :=
    match s1.2 with
    | '.' :: t => t
    | _ => s1.2
  let s3 := r2.span Char.isDigit
  if s1.1.isEmpty && s3.1.isEmpty then none
  else
    let mant : ℚ :=
      (digitsToNat s1.1 : ℚ) + (digitsToNat s3.1 : ℚ) / ((10 : ℚ) ^ s3.1.length)
    match s3.2 with
    | [] => some mant
    | c :: rest =>
      if c = 'e' || c = 'E' then
        match parseExp rest with
        | none => none
        | some e => some (mant * (10 : ℚ) ^ e)
      else none

/-- Python `float(·)` on finite decimal literals, with optional sign. -/
def pyFloat (s : String) : Option ℚ :=
  match s.data with
  | [] => none
  | c :: rest =>
    if c = '+' then pyFloatMag rest
    else if c = '-' then (pyFloatMag rest).map (fun q => -q)
    else pyFloatMag (c :: rest)

/-- `parse_miles` from `src/app.py`: strip, delete commas, then `float(·)`;
`None` on parse failure. -/
def parse_miles (s : String) : Option ℚ :=
  pyFloat ⟨(stripL s.data).filter (fun c => c ≠ ',')⟩

/-- `calc_trip_cost` from `src/app.py`: 19 dollar loading fee plus 1.8
dollars per mile after the first 5 miles. -/
def calc_trip_cost (miles : ℚ) : ℚ :=
  let base : ℚ := 19.0
  let extra : ℚ := max 0.0 (miles - 5.0)
  base + extra * 1.8

/-- `MIN_MILES` from `src/app.py`. -/
def MIN_MILES : ℚ := 35.0

/-- Float-to-2-decimals formatting (Python `f"{x:.2f}"`): value scaled by 100
and rounded half-to-even, computed over the exact rational.  The sign is
taken from the value itself, so small negative values format as `-0.00`
exactly as Python prints them. -/
def roundHalfEven100 (q : ℚ) : Int :=
  let n : Int := q.num * 100
  let d : Int := (q.den : Int)
  let f : Int := n.fdiv d
  let r : Int := n - f * d
  if d < 2 * r then f + 1
  else if 2 * r < d then f
  else if f % 2 = 0 then f else f + 1

/-- Decimal digits of a natural number; the fuel argument only bounds the
recursion depth. -/
def natDigitsAux : Nat → Nat → List Char
  | 0, _ => []
  | fuel + 1, n =>
    if n = 0 then [] else natDigitsAux fuel (n / 10) ++ [Char.ofNat (48 + n % 10)]

/-- Decimal rendering of a natural number. -/
def natToStrL (n : Nat) : List Char :=
  if n = 0 then ['0'] else natDigitsAux (n + 1) n

/-- Python `f"{q:.2f}"` on the exact rational value. -/
def fmt2 (q : ℚ) : String :=
  let n := roundHalfEven100 q
  let m := n.natAbs
  let intPart := natToStrL (m / 100)
  let fracPart := if m % 100 < 10 then '0' :: natToStrL (m % 100) else natToStrL (m % 100)
  ⟨(if q.num < 0 then '-' :: intPart else intPart) ++ '.' :: fracPart⟩

/-- UTF-8 encoding of one character, as byte values. -/
def utf8Bytes (c : Char) : List Nat :=
  let n := c.toNat
  if n < 128 then [n]
  else if n < 2048 then [192 + n / 64, 128 + n % 64]
  else if n < 65536 then [224 + n / 4096, 128 + n / 64 % 64, 128 + n % 64]
  else [240 + n / 262144, 128 + n / 4096 % 64, 128 + n / 64 % 64, 128 + n % 64]

/-- UTF-8 encoding of a string (Python `str.encode("utf-8")`). -/
def strBytes (s : String) : List Nat :=
  s.data.foldr (fun c acc => utf8Bytes c ++ acc) []

/-- Reduction modulo `2 ^ 32`. -/
def w32 (n : Nat) : Nat := n % 4294967296

/-- 32-bit right rotation (argument assumed below `2 ^ 32`). -/
def rotr (x n : Nat) : Nat := w32 ((x >>> n) ||| (x <<< (32 - n)))

/-- SHA-256 round constants (the fractional parts of the cube roots of the
first 64 primes, as 32-bit words, written in decimal). -/
def shaK : List Nat :=
  [1116352408, 1899447441, 3049323471, 3921009573, 961987163,
   1508970993, 2453635748, 2870763221, 3624381080, 310598401,
   607225278, 1426881987, 1925078388, 2162078206, 2614888103,
   3248222580, 3835390401, 4022224774, 264347078, 604807628,
   770255983, 1249150122, 1555081692, 1996064986, 2554220882,
   2821834349, 2952996808, 3210313671, 3336571891, 3584528711,
   113926993, 338241895, 666307205, 773529912, 1294757372,
   1396182291, 1695183700, 1986661051, 2177026350, 2456956037,
   2730485921, 2820302411, 3259730800, 3345764771, 3516065817,
   3600352804, 4094571909, 275423344, 430227734, 506948616,
   659060556, 883997877, 958139571, 1322822218, 1537002063,
   1747873779, 1955562222, 2024104815, 2227730452, 2361852424,
   2428436474, 2756734187, 3204031479, 3329325298]

/-- SHA-256 compression state. -/
structure Hs where
  a : Nat
  b : Nat
  c : Nat
  d : Nat
  e : Nat
  f : Nat
  g : Nat
  h : Nat
  deriving DecidableEq

/-- SHA-256 initial state (fractional parts of the square roots of the
first 8 primes, as 32-bit words, written in decimal). -/
def shaH0 : Hs :=
  ⟨1779033703, 3144134277, 1013904242, 2773480762,
   1359893119, 2600822924, 528734635, 1541459225⟩

/-- Big-endian 8-byte encoding. -/
def be64 (n : Nat) : List Nat :=
  [(n >>> 56) % 256, (n >>> 48) % 256, (n >>> 40) % 256, (n >>> 32) % 256,
   (n >>> 24) % 256, (n >>> 16) % 256, (n >>> 8) % 256, n % 256]

/-- SHA-256 padding: `0x80`, zeros to 56 mod 64, then the bit length. -/
def padMsg (msg : List Nat) : List Nat :=
  let l := msg.length
  msg ++ 0x80 :: List.replicate ((119 - l % 64) % 64) 0 ++ be64 (8 * l)

/-- Big-endian 32-bit words from bytes. -/
def bytesToWords : List Nat → List Nat
  | b0 :: b1 :: b2 :: b3 :: rest =>
    (((b0 * 256 + b1) * 256 + b2) * 256 + b3) :: bytesToWords rest
  | _ => []

/-- Split a word list into 16-word blocks (fuel bounds the recursion). -/
def chunks16 : Nat → List Nat → List (List Nat)
  | 0, _ => []
  | _, [] => []
  | fuel + 1, ws => ws.take 16 :: chunks16 fuel (ws.drop 16)

/-- SHA-256 message-schedule extension step, appending one word. -/
def extendStep (w : List Nat) : List Nat :=
  let i := w.length
  let s0 :=
    rotr (w.getD (i - 15) 0) 7 ^^^ rotr (w.getD (i - 15) 0) 18 ^^^
      (w.getD (i - 15) 0 >>> 3)
  let s1 :=
    rotr (w.getD (i - 2) 0) 17 ^^^ rotr (w.getD (i - 2) 0) 19 ^^^
      (w.getD (i - 2) 0 >>> 10)
  w ++ [w32 (w.getD (i - 16) 0 + s0 + w.getD (i - 7) 0 + s1)]

/-- Iterate the schedule extension. -/
def extendIter : Nat → List Nat → List Nat
  | 0, w => w
  | fuel + 1, w => extendIter fuel (extendStep w)

/-- One SHA-256 round. -/
def shaRound (s : Hs) (kw : Nat × Nat) : Hs :=
  let s1 := rotr s.e 6 ^^^ rotr s.e 11 ^^^ rotr s.e 25
  let ch := (s.e &&& s.f) ^^^ ((s.e ^^^ 0xffffffff) &&& s.g)
  let t1 := w32 (s.h + s1 + ch + kw.1 + kw.2)
  let s0 := rotr s.a 2 ^^^ rotr s.a 13 ^^^ rotr s.a 22
  let mj := (s.a &&& s.b) ^^^ (s.a &&& s.c) ^^^ (s.b &&& s.c)
  let t2 := w32 (s0 + mj)
  ⟨w32 (t1 + t2), s.a, s.b, s.c, w32 (s.d + t1), s.e, s.f, s.g⟩

/-- SHA-256 compression of one 16-word block. -/
def compressBlock (hs : Hs) (block : List Nat) : Hs :=
  let w := extendIter 48 block
  let s := (shaK.zip w).foldl shaRound hs
  ⟨w32 (hs.a + s.a), w32 (hs.b + s.b), w32 (hs.c + s.c), w32 (hs.d + s.d),
   w32 (hs.e + s.e), w32 (hs.f + s.f), w32 (hs.g + s.g), w32 (hs.h + s.h)⟩

/-- Lower-case hex digit. -/
def hexDigit (n : Nat) : Char :=
  if n < 10 then Char.ofNat (48 + n) else Char.ofNat (87 + n)

/-- Eight hex digits of a 32-bit word. -/
def word8Hex (n : Nat) : List Char :=
  [hexDigit ((n >>> 28) % 16), hexDigit ((n >>> 24) % 16),
   hexDigit ((n >>> 20) % 16), hexDigit ((n >>> 16) % 16),
   hexDigit ((n >>> 12) % 16), hexDigit ((n >>> 8) % 16),
   hexDigit ((n >>> 4) % 16), hexDigit (n % 16)]

/-- `hashlib.sha256(s.encode("utf-8")).hexdigest()`. -/
def sha256hex (s : String) : String :=
  let bytes := padMsg (strBytes s)
  let words := bytesToWords bytes
  let final := (chunks16 (words.length + 1) words).foldl compressBlock shaH0
  ⟨word8Hex final.a ++ word8Hex final.b ++ word8Hex final.c ++ word8Hex final.d ++
   word8Hex final.e ++ word8Hex final.f ++ word8Hex final.g ++ word8Hex final.h⟩

/-- `trip_key` from `src/app.py`: SHA-256 hex digest of the pipe-joined
fields, `miles` formatted to two decimals. -/
def trip_key (date_str appt_time pickup_time pickup dropoff : String)
    (miles : ℚ) : String :=
  sha256hex (date_str ++ "|" ++ appt_time ++ "|" ++ pickup_time ++ "|" ++
    pickup ++ "|" ++ dropoff ++ "|" ++ fmt2 miles)

/-- `ALLOWED_CITIES` from `src/app.py`, in source order. -/
def ALLOWED_CITIES : List String :=
  ["Milwaukee", "Madison", "Fitchburg", "Middleton", "Monona", "Sun Prairie",
   "Waunakee", "Verona", "McFarland", "DeForest", "Oregon", "Stoughton",
   "Cottage Grove", "Mount Horeb", "Minneapolis", "Edina", "Bloomington",
   "Burnsville", "Rochester", "St Paul", "Saint Paul", "Saint Louis Park",
   "Hudson", "Chicago"]

/-- One table row as structured by `read_trips_from_table`. -/
structure RowTrip where
  appt_time : String
  pickup_time : String
  pickup_text : String
  dropoff_text : String
  miles : ℚ
  deriving DecidableEq

/-- The body of one iteration of the row loop in `read_trips_from_table`:
require at least 5 cells, strip the cell texts, clean the address blocks,
parse the distance; `none` models the `continue` paths. -/
def rowToTrip (cells : List String) : Option RowTrip :=
  if cells.length < 5 then none
  else
    let appt_time := pyStrip (cells.getD 0 "")
    let pickup_time := pyStrip (cells.getD 1 "")
    let pickup_text := clean_address_block (pyStrip (cells.getD 2 ""))
    let dropoff_text := clean_address_block (pyStrip (cells.getD 3 ""))
    match parse_miles (pyStrip (cells.getD 4 "")) with
    | none => none
    | some m => some ⟨appt_time, pickup_time, pickup_text, dropoff_text, m⟩

/-- The row loop of `read_trips_from_table`; the fuel models the
`range(min(rows.count(), 200))` bound. -/
def readLoop : Nat → List (List String) → List RowTrip
  | 0, _ => []
  | _, [] => []
  | fuel + 1, r :: rs =>
    match rowToTrip r with
    | none => readLoop fuel rs
    | some t => t :: readLoop fuel rs

/-- `read_trips_from_table` from `src/app.py` on a snapshot of raw rows:
processes at most the first 200 rows, skipping malformed ones. -/
def read_trips_from_table (rows : List (List String)) : List RowTrip :=
  readLoop 200 rows

/-- The distance gate of the main loop: `if miles <= MIN_MILES: continue`. -/
def milesGate (miles : ℚ) : Bool := !decide (miles ≤ MIN_MILES)

/-- The geography gate of the main loop:
`if (pickup_city not in ALLOWED_CITIES) and (dropoff_city not in ALLOWED_CITIES): continue`,
applied to the already-defaulted city strings. -/
def geoGate (pickup_city dropoff_city : String) : Bool :=
  !(!ALLOWED_CITIES.contains pickup_city && !ALLOWED_CITIES.contains dropoff_city)

/-- The mojibake dash sentinel that appears literally in `src/app.py`
(bytes `c3 a2 e2 82 ac e2 80 9d`). -/
def dashSentinel : String := "â€”"

/-- Leg-time normalisation of the main loop: strip, then collapse the
blank / dash sentinels to `"N/A"`. -/
def legNorm (s : String) : String :=
  let t := pyStrip s
  if t = "" || t = dashSentinel || t = "-" then "N/A" else t

/-- The alert message f-string of the main loop (the leading characters are
the mojibake emoji bytes present in the source). -/
def buildMsg (date_str leg_a leg_b pickup_city dropoff_city
    pickup_text dropoff_text : String) (miles cost : ℚ) : String :=
  "ðŸš¨ New long trip (" ++ fmt2 miles ++ " miles) on " ++
    date_str ++ "\n" ++
  "Leg A (Appt Time): " ++ leg_a ++ "\n" ++
  "Leg B (Pickup Time): " ++ leg_b ++ "\n" ++
  "Estimated Cost: $" ++ fmt2 cost ++ "\n\n" ++
  "Pickup: " ++ (if pickup_city = "" then "Unknown" else pickup_city) ++ "\n" ++
    pickup_text ++ "\n\n" ++
  "Dropoff: " ++ (if dropoff_city = "" then "Unknown" else dropoff_city) ++ "\n" ++
    dropoff_text

/-- One iteration of the per-trip loop in `main`: distance gate, city
extraction with `or ""` defaulting, geography gate, leg normalisation, cost,
fingerprint, dedup check.  Returns the fingerprint and the message when the
trip is alerted on, `none` when any `continue` fires. -/
def handleTrip (date_str : String) (t : RowTrip) (seen : List String) :
    Option (String × String) :=
  if !milesGate t.miles then none
  else
    let pickup_city := (extract_city t.pickup_text).getD ""
    let dropoff_city := (extract_city t.dropoff_text).getD ""
    if !geoGate pickup_city dropoff_city then none
    else
      let leg_a := legNorm t.appt_time
      let leg_b := legNorm t.pickup_time
      let cost := calc_trip_cost t.miles
      let key := trip_key date_str leg_a leg_b t.pickup_text t.dropoff_text t.miles
      if seen.contains key then none
      else
        some (key, buildMsg date_str leg_a leg_b pickup_city dropoff_city
          t.pickup_text t.dropoff_text t.miles cost)

/-- Observable events of one per-trip loop: a fingerprint inserted into the
dedup set (`seen.add`), or a notification dispatch attempt (`send_telegram`)
with its outcome. -/
inductive Ev where
  | mark (key : String) : Ev
  | dispatch (msg : String) (ok : Bool) : Ev
  deriving DecidableEq

/-- The per-trip loop of `main` over one date's trips: threads the `seen`
set, records a `mark` (the `seen.add` preceding the send) and a `dispatch`
per alerted trip.  `fails` supplies the outcome of each successive dispatch
(`true` = the notifier fails); `send_telegram` swallows failures, so the
loop never branches on it. -/
def pipeRun (date_str : String) :
    List RowTrip → List String → List Bool → List String × List Ev
  | [], seen, _ => (seen, [])
  | t :: ts, seen, fails =>
    match handleTrip date_str t seen with
    | none => pipeRun date_str ts seen fails
    | some km =>
      let res := pipeRun date_str ts (km.1 :: seen) fails.tail
      (res.1, Ev.mark km.1 :: Ev.dispatch km.2 (!(fails.headD false)) :: res.2)

/-- The messages whose dispatch was attempted in a trace. -/
def sentMsgs (evs : List Ev) : List String :=
  evs.filterMap fun e =>
    match e with
    | .dispatch m _ => some m
    | _ => none

/-- Processing of one date in `main`: extract the snapshot's rows, then run
the per-trip loop. -/
def processDate (date_str : String) (rows : List (List String))
    (seen : List String) (fails : List Bool) : List String × List Ev :=
  pipeRun date_str (read_trips_from_table rows) seen fails

/-- The fingerprint the per-trip loop computes for a trip. -/
def tKey (d : String) (t : RowTrip) : String :=
  trip_key d (legNorm t.appt_time) (legNorm t.pickup_time) t.pickup_text
    t.dropoff_text t.miles

/-- Interleaved mark / dispatch blocks of an alert trace. -/
def evBlocks : List (String × String × Bool) → List Ev
  | [] => []
  | e :: es => Ev.mark e.1 :: Ev.dispatch e.2.1 e.2.2 :: evBlocks es

/-- Forget dispatch outcomes in a trace. -/
def evForget : Ev → Ev
  | .dispatch m _ => .dispatch m true
  | e => e

example : sha256hex "abc" =
    "ba7816bf8f01cfea414140de5dae2223b00361a396177a9cb410ff61f20015ad" := by decide
example : sha256hex "" =
    "e3b0c44298fc1c149afbf4c8996fb92427ae41e4649b934ca495991b7852b855" := by decide
example : fmt2 40 = "40.00" := by decide
example : fmt2 (mkRat 40001 1000) = "40.00" := by decide
example : fmt2 (mkRat 4001 100) = "40.01" := by decide
example : fmt2 (mkRat (-1) 1000) = "-0.00" := by decide

example : clean_address_block "  123   Main St \n\n  Madison   WI 53703 " =
    "123 Main St\nMadison WI 53703" := by decide
example : clean_address_block "" = "" := by decide
example : extract_city "123 Main St\nMadison WI 53703" = some "Madison" := by decide
example : extract_city "123 Main St\nmadison wi 53703" = none := by decide
example : extract_city "MADISON WI 53703" = some "Madison" := by decide
example : extract_city "Sun  Prairie Wi 53590" = some "Sun Prairie" := by decide
example : parse_miles " 1,234.5 " = some (2469 / 2) := by decide
example : parse_miles "N/A" = none := by decide
example : parse_miles "-5" = some (-5) := by decide
example : parse_miles "4e1" = some 40 := by decide
example : parse_miles "" = none := by decide
example : parse_miles "." = none := by decide
example : calc_trip_cost 10 = 28 := by norm_num [calc_trip_cost]
example : calc_trip_cost 5 = 19 := by norm_num [calc_trip_cost]

theorem collapseWs_cons_space_t (c : Char) (t : List Char)
    (hc : isPySpace c = true) :
    collapseWs (c :: t) true = collapseWs t true := by
  simp [collapseWs, hc]

theorem collapseWs_cons_space_f (c : Char) (t : List Char)
    (hc : isPySpace c = true) :
    collapseWs (c :: t) false = ' ' :: collapseWs t true := by
  simp [collapseWs, hc]

theorem collapseWs_cons_nonspace (c : Char) (t : List Char) (b : Bool)
    (hc : isPySpace c = false) :
    collapseWs (c :: t) b = c :: collapseWs t false := by
  simp [collapseWs, hc]

theorem collapseWs_idem (l : List Char) (b : Bool) :
    collapseWs (collapseWs l b) b = collapseWs l b := by
  induction l generalizing b with
  | nil => rfl
  | cons c cs ih =>
    by_cases hc : isPySpace c = true
    · cases b with
      | true =>
        rw [collapseWs_cons_space_t c cs hc]
        exact ih true
      | false =>
        rw [collapseWs_cons_space_f c cs hc,
          collapseWs_cons_space_f ' ' (collapseWs cs true) rfl, ih true]
    · have hc2 : isPySpace c = false := by simpa using hc
      rw [collapseWs_cons_nonspace c cs b hc2,
        collapseWs_cons_nonspace c (collapseWs cs false) b hc2, ih false]

theorem collapseWs_space_mem (l : List Char) (b : Bool) (c : Char)
    (hmem : c ∈ collapseWs l b) (hs : isPySpace c = true) : c = ' ' := by
  induction l generalizing b with
  | nil => simp [collapseWs] at hmem
  | cons a as ih =>
    by_cases ha : isPySpace a = true
    · cases b with
      | true =>
        rw [collapseWs_cons_space_t a as ha] at hmem
        exact ih (b := true) hmem
      | false =>
        rw [collapseWs_cons_space_f a as ha] at hmem
        rcases List.mem_cons.mp hmem with h | h
        · exact h
        · exact ih (b := true) h
    · rw [collapseWs_cons_nonspace a as b (by simpa using ha)] at hmem
      rcases List.mem_cons.mp hmem with h | h
      · subst h; exact absurd hs (by simpa using ha)
      · exact ih (b := false) h

theorem lstripL_head (l : List Char) :
    lstripL l = [] ∨ ∃ c t, lstripL l = c :: t ∧ isPySpace c = false := by
  induction l with
  | nil => exact Or.inl rfl
  | cons c t ih =>
    by_cases hc : isPySpace c = true
    · simpa [lstripL, List.dropWhile_cons, hc] using ih
    · exact Or.inr ⟨c, t, by simp [lstripL, List.dropWhile_cons, hc],
        by simpa using hc⟩

theorem rstripL_cons (c : Char) (t : List Char) :
    rstripL (c :: t) = [] ∨ ∃ t2, rstripL (c :: t) = c :: t2 := by
  simp only [rstripL]
  cases h : rstripL t with
  | nil => by_cases hc : isPySpace c = true <;> simp [hc]
  | cons r2 rs => exact Or.inr ⟨r2 :: rs, rfl⟩

theorem rstripL_last (l : List Char) :
    rstripL l = [] ∨ ∃ l2 c, rstripL l = l2 ++ [c] ∧ isPySpace c = false := by
  induction l with
  | nil => exact Or.inl rfl
  | cons a t ih =>
    rcases ih with h | ⟨l2, c, h, hc⟩
    · simp only [rstripL, h]
      by_cases ha : isPySpace a = true
      · simp [ha]
      · exact Or.inr ⟨[], a, by simp [ha], by simpa using ha⟩
    · refine Or.inr ⟨a :: l2, c, ?_, hc⟩
      simp only [rstripL, h]
      cases l2 <;> simp

theorem collapseWs_append_last (l : List Char) (c : Char) (b : Bool)
    (hc : isPySpace c = false) :
    ∃ l2, collapseWs (l ++ [c]) b = l2 ++ [c] := by
  induction l generalizing b with
  | nil => exact ⟨[], by simp [collapseWs, hc]⟩
  | cons a as ih =>
    by_cases ha : isPySpace a = true
    · cases b with
      | true => simpa [collapseWs, ha] using ih true
      | false =>
        obtain ⟨l2, h⟩ := ih true
        exact ⟨' ' :: l2, by simp [collapseWs, ha, h]⟩
    · obtain ⟨l2, h⟩ := ih false
      exact ⟨a :: l2, by simp [collapseWs, ha, h]⟩

theorem rstripL_append_nonspace (l : List Char) (c : Char)
    (hc : isPySpace c = false) : rstripL (l ++ [c]) = l ++ [c] := by
  induction l with
  | nil => simp [rstripL, hc]
  | cons a t ih =>
    rw [List.cons_append, rstripL, ih]
    cases t <;> simp

theorem lstripL_cons_nonspace (c : Char) (t : List Char)
    (hc : isPySpace c = false) : lstripL (c :: t) = c :: t := by
  simp [lstripL, List.dropWhile_cons, hc]

theorem stripL_collapse_strip (m : List Char) :
    stripL (collapseL (stripL m)) = collapseL (stripL m) := by
  rcases lstripL_head m with h0 | ⟨c, t, h0, hc⟩
  · have hsm : stripL m = [] := by
      show rstripL (lstripL m) = []
      rw [h0]; rfl
    rw [hsm]; rfl
  · rcases rstripL_last (lstripL m) with h1 | ⟨l2, ce, h1, hce⟩
    · have hsm : stripL m = [] := h1
      rw [hsm]; rfl
    · rcases rstripL_cons c t with h2 | ⟨t2, h2⟩
      · rw [h0] at h1
        rw [h2] at h1
        exact absurd h1.symm (by simp)
      · have hy : stripL m = c :: t2 := by
          show rstripL (lstripL m) = c :: t2
          rw [h0]; exact h2
        have hy2 : stripL m = l2 ++ [ce] := h1
        have hx1 : collapseL (stripL m) = c :: collapseWs t2 false := by
          rw [hy]; exact collapseWs_cons_nonspace c t2 false hc
        obtain ⟨l3, hx2⟩ : ∃ l3, collapseL (stripL m) = l3 ++ [ce] := by
          rw [hy2]; exact collapseWs_append_last l2 ce false hce
        show rstripL (lstripL (collapseL (stripL m))) = collapseL (stripL m)
        rw [hx1, lstripL_cons_nonspace c _ hc, ← hx1, hx2,
          rstripL_append_nonspace l3 ce hce]

theorem line_fix (m : List Char) :
    collapseL (stripL (collapseL (stripL m))) = collapseL (stripL m) := by
  rw [stripL_collapse_strip]
  exact collapseWs_idem (stripL m) false

theorem lineSep_space {c : Char} (h : isLineSep c = true) :
    isPySpace c = true ∧ c ≠ ' ' := by
  simp only [isLineSep, Bool.or_eq_true, decide_eq_true_eq] at h
  rcases h with ((h | h) | h) | h <;> subst h <;> exact ⟨rfl, by decide⟩

theorem collapse_no_sep (l : List Char) (b : Bool) (c : Char)
    (hmem : c ∈ collapseWs l b) : isLineSep c = false := by
  by_contra h
  have h2 := lineSep_space (c := c) (by simpa using h)
  exact h2.2 (collapseWs_space_mem l b c hmem h2.1)

theorem splitlines_sep (c : Char) (rest : List Char) (hs : isLineSep c = true)
    (hr : c ≠ '\r') : splitlinesL (c :: rest) = [] :: splitlinesL rest := by
  cases rest with
  | nil => simp [splitlinesL, hs]
  | cons c2 rest2 =>
    rw [splitlinesL.eq_def]
    split
    · rename_i h
      exact absurd h (List.cons_ne_nil _ _)
    · rename_i rest3 h
      exfalso
      injection h with h1 h2
      exact hr h1
    · rename_i c3 rest3 hno heq
      injection heq with h1 h2
      subst h1
      subst h2
      simp [hs]

theorem splitlines_nonsep (c : Char) (rest : List Char)
    (hs : isLineSep c = false) :
    splitlinesL (c :: rest) =
      (match splitlinesL rest with
       | [] => [[c]]
       | l :: ls => (c :: l) :: ls) := by
  cases rest with
  | nil => simp [splitlinesL, hs]
  | cons c2 rest2 =>
    rw [splitlinesL.eq_def]
    split
    · rename_i h
      exact absurd h (List.cons_ne_nil _ _)
    · rename_i rest3 h
      exfalso
      injection h with h1 h2
      subst h1
      simp [isLineSep] at hs
    · rename_i c3 rest3 hno heq
      injection heq with h1 h2
      subst h1
      subst h2
      simp [hs]

theorem splitlines_single (l : List Char) (hne : l ≠ [])
    (hsep : ∀ c ∈ l, isLineSep c = false) : splitlinesL l = [l] := by
  induction l with
  | nil => exact absurd rfl hne
  | cons c t ih =>
    rw [splitlines_nonsep c t (hsep c (by simp))]
    cases t with
    | nil => simp [splitlinesL]
    | cons c2 t2 =>
      rw [ih (by simp) (fun x hx => hsep x (by simp [hx]))]

theorem splitlines_append (l r : List Char)
    (hsep : ∀ c ∈ l, isLineSep c = false) :
    splitlinesL (l ++ '\n' :: r) = l :: splitlinesL r := by
  induction l with
  | nil =>
    simp only [List.nil_append]
    exact splitlines_sep '\n' r rfl (by decide)
  | cons c t ih =>
    rw [List.cons_append, splitlines_nonsep c _ (hsep c (by simp)),
      ih (fun x hx => hsep x (by simp [hx]))]

theorem splitlines_join (ls : List (List Char)) (hne : ∀ l ∈ ls, l ≠ [])
    (hsep : ∀ l ∈ ls, ∀ c ∈ l, isLineSep c = false) :
    splitlinesL (joinNlL ls) = ls := by
  induction ls with
  | nil => rfl
  | cons l ls2 ih =>
    cases ls2 with
    | nil => exact splitlines_single l (hne l (by simp)) (hsep l (by simp))
    | cons l2 ls3 =>
      have hj : joinNlL (l :: l2 :: ls3) = l ++ '\n' :: joinNlL (l2 :: ls3) := rfl
      rw [hj, splitlines_append l _ (hsep l (by simp)),
        ih (fun x hx => hne x (by simp [hx]))
          (fun x hx => hsep x (by simp [hx]))]

theorem splitlines_sep_eq (c : Char) (rest : List Char)
    (hno : ∀ r2, c = '\r' → rest = '\n' :: r2 → False)
    (hs : isLineSep c = true) :
    splitlinesL (c :: rest) = [] :: splitlinesL rest := by
  rw [splitlinesL.eq_def]
  split
  · rename_i h
    exact absurd h (List.cons_ne_nil _ _)
  · rename_i rest3 h
    exfalso
    injection h with h1 h2
    exact hno rest3 h1 h2
  · rename_i c3 rest3 hno2 heq
    injection heq with h1 h2
    subst h1
    subst h2
    simp [hs]

theorem splitlines_chars (cs : List Char) :
    ∀ l ∈ splitlinesL cs, ∀ c ∈ l, c ∈ cs := by
  induction cs using splitlinesL.induct with
  | case1 => simp [splitlinesL]
  | case2 rest ih =>
    intro l hl c hc
    have he : splitlinesL ('\r' :: '\n' :: rest) = [] :: splitlinesL rest := rfl
    rw [he] at hl
    rcases List.mem_cons.mp hl with h | h
    · subst h; simp at hc
    · simp [ih l h c hc]
  | case3 c1 rest hno hs ih =>
    intro l hl c hc
    rw [splitlines_sep_eq c1 rest hno hs] at hl
    rcases List.mem_cons.mp hl with h | h
    · subst h; simp at hc
    · simp [ih l h c hc]
  | case4 c1 rest hno hs hrec ih =>
    intro l hl c hc
    rw [splitlines_nonsep c1 rest (by simpa using hs), hrec] at hl
    simp only [List.mem_singleton] at hl
    subst hl
    simp only [List.mem_singleton] at hc
    simp [hc]
  | case5 c1 rest hno hs l2 ls2 hrec ih =>
    intro l hl c hc
    rw [splitlines_nonsep c1 rest (by simpa using hs), hrec] at hl
    rcases List.mem_cons.mp hl with h | h
    · subst h
      rcases List.mem_cons.mp hc with h2 | h2
      · simp [h2]
      · have hm : c ∈ rest := ih l2 (by rw [hrec]; exact List.mem_cons_self l2 ls2) c h2
        simp [hm]
    · have hm : c ∈ rest := ih l (by rw [hrec]; exact List.mem_cons_of_mem l2 h) c hc
      simp [hm]

theorem cleanLines_mem (s : String) (l : List Char) (h : l ∈ cleanLines s) :
    (∃ m, l = collapseL (stripL m)) ∧ l ≠ [] := by
  simp only [cleanLines, List.mem_filter, List.mem_map] at h
  obtain ⟨⟨m, hm, hl⟩, hne⟩ := h
  subst hl
  refine ⟨⟨m, rfl⟩, ?_⟩
  simpa [List.isEmpty_iff] using hne

theorem map_id_of_mem {α : Type} (f : α → α) (l : List α)
    (h : ∀ x ∈ l, f x = x) : l.map f = l := by
  induction l with
  | nil => rfl
  | cons a t ih =>
    simp only [List.map_cons, h a (List.mem_cons_self a t),
      ih (fun x hx => h x (List.mem_cons_of_mem a hx))]

/-- `C10`: `clean_address_block` is idempotent and total: a second
application is the identity, and empty or all-whitespace input yields the
empty string. -/
theorem C10_clean_address_block_idempotent :
    (∀ s : String, clean_address_block (clean_address_block s) =
      clean_address_block s) ∧
    (∀ s : String, (∀ c ∈ s.data, isPySpace c = true) →
      clean_address_block s = "") ∧
    clean_address_block "" = "" := by
  have hmk : ∀ x : List Char, (⟨x⟩ : String) = "" ↔ x = [] := by
    intro x
    constructor
    · intro h
      have := congrArg String.data h
      simpa using this
    · intro h; subst h; rfl
  have hclean : ∀ s : String, s ≠ "" →
      clean_address_block s = ⟨joinNlL (cleanLines s)⟩ := by
    intro s hs
    simp [clean_address_block, hs]
  have hdata : ∀ x : List Char, (⟨x⟩ : String).data = x := fun _ => rfl
  have key : ∀ s : String, clean_address_block (clean_address_block s) =
      clean_address_block s := by
    intro s
    by_cases hs : s = ""
    · subst hs; rfl
    · rw [hclean s hs]
      by_cases hls : cleanLines s = []
      · rw [hls]
        show clean_address_block "" = (⟨joinNlL []⟩ : String)
        rfl
      · have hne : (⟨joinNlL (cleanLines s)⟩ : String) ≠ "" := by
          intro hcontra
          have hj : joinNlL (cleanLines s) = [] := (hmk _).mp hcontra
          obtain ⟨l, ls, hcons⟩ := List.exists_cons_of_ne_nil hls
          rw [hcons] at hj
          have hl := cleanLines_mem s l
            (by rw [hcons]; exact List.mem_cons_self l ls)
          obtain ⟨x, t, hxt⟩ := List.exists_cons_of_ne_nil hl.2
          subst hxt
          cases ls <;> simp [joinNlL] at hj
        rw [hclean _ hne]
        congr 1
        have hsplit : splitlinesL (joinNlL (cleanLines s)) = cleanLines s := by
          apply splitlines_join
          · exact fun l hl => (cleanLines_mem s l hl).2
          · intro l hl c hc
            obtain ⟨⟨m, hm⟩, _⟩ := cleanLines_mem s l hl
            subst hm
            exact collapse_no_sep (stripL m) false c (by simpa [collapseL] using hc)
        show joinNlL (cleanLines ⟨joinNlL (cleanLines s)⟩) =
          joinNlL (cleanLines s)
        congr 1
        show ((splitlinesL (⟨joinNlL (cleanLines s)⟩ : String).data).map
            (fun ln => collapseL (stripL ln))).filter (fun l => !l.isEmpty) =
          cleanLines s
        rw [hdata, hsplit]
        have hmap : (cleanLines s).map (fun ln => collapseL (stripL ln)) =
            cleanLines s := by
          apply map_id_of_mem
          intro l hl
          obtain ⟨⟨m, hm⟩, _⟩ := cleanLines_mem s l hl
          rw [hm]
          exact line_fix m
        rw [hmap]
        apply List.filter_eq_self.mpr
        intro l hl
        simpa [List.isEmpty_iff] using (cleanLines_mem s l hl).2
  refine ⟨key, ?_, rfl⟩
  intro s hws
  by_cases hs : s = ""
  · subst hs; rfl
  · rw [hclean s hs, hmk]
    have hlines : cleanLines s = [] := by
      apply List.filter_eq_nil_iff.mpr
      intro l hl
      simp only [List.mem_map] at hl
      obtain ⟨m, hm, hlm⟩ := hl
      have hmem : ∀ c ∈ m, isPySpace c = true := by
        intro c hc
        exact hws c (splitlines_chars s.data m hm c hc)
      have hstrip : stripL m = [] := by
        have hl1 : lstripL m = [] := List.dropWhile_eq_nil_iff.mpr hmem
        show rstripL (lstripL m) = []
        rw [hl1]; rfl
      subst hlm
      simp [hstrip, collapseL, collapseWs]
    rw [hlines]
    rfl

/-- `C6`: the distance gate of the main loop passes exactly when the trip's
miles are strictly greater than `MIN_MILES = 35`; `35.0` fails, `35.01`
passes, and a trip at or below the threshold is dropped by the per-trip
handler. -/
theorem C6_distance_gate :
    (∀ m : ℚ, milesGate m = true ↔ MIN_MILES < m) ∧
    milesGate 35.0 = false ∧
    milesGate 35.01 = true ∧
    (∀ (d : String) (t : RowTrip) (s : List String),
      t.miles ≤ MIN_MILES → handleTrip d t s = none) := by
  refine ⟨?_, by decide, by decide, ?_⟩
  · intro m
    simp [milesGate, not_le]
  · intro d t s h
    simp [handleTrip, milesGate, h]

/-- Witness for `C6` at the boundary input `miles = 35`. -/
theorem C6_distance_gate_witness :
    handleTrip "02/10/2025" ⟨"N/A", "N/A", "x", "y", 35⟩ [] = none :=
  C6_distance_gate.2.2.2 "02/10/2025" ⟨"N/A", "N/A", "x", "y", 35⟩ []
    (by decide)

/-- `C7`: the cost model is `19 + max 0 (miles - 5) * 1.8` dollars for every
non-negative input, equals exactly the 19-dollar base fee at or below the 5
free miles, and takes the claimed values at 5, 10 and 0 miles. -/
theorem C7_cost_model :
    (∀ m : ℚ, 0 ≤ m → calc_trip_cost m = 19.0 + max 0 (m - 5.0) * 1.8) ∧
    (∀ m : ℚ, 0 ≤ m → m ≤ 5.0 → calc_trip_cost m = 19.0) ∧
    calc_trip_cost 5.0 = 19.0 ∧ calc_trip_cost 10.0 = 28.0 ∧
    calc_trip_cost 0.0 = 19.0 := by
  have hform : ∀ m : ℚ, calc_trip_cost m = 19.0 + max 0 (m - 5.0) * 1.8 := by
    intro m
    show (19.0 : ℚ) + max 0.0 (m - 5.0) * 1.8 = 19.0 + max 0 (m - 5.0) * 1.8
    norm_num
  refine ⟨fun m _ => hform m, ?_, by norm_num [calc_trip_cost],
    by norm_num [calc_trip_cost], by norm_num [calc_trip_cost]⟩
  intro m h0 h5
  rw [hform m]
  have h1 : m - 5.0 ≤ 0 := by
    have h2 : (5.0 : ℚ) = 5 := by norm_num
    rw [h2] at h5 ⊢
    linarith
  rw [max_eq_left h1]
  ring

/-- Witness for `C7` at `miles = 3`. -/
theorem C7_cost_model_witness :
    calc_trip_cost 3 = 19.0 + max 0 ((3 : ℚ) - 5.0) * 1.8 ∧
    calc_trip_cost 3 = 19.0 :=
  ⟨C7_cost_model.1 3 (by decide), C7_cost_model.2.1 3 (by decide) (by decide)⟩

/-- `C1`: the geography gate passes iff at least one of the two extracted
(case-normalised) cities is a member of `ALLOWED_CITIES`; an absent
extraction (defaulted to `""` by the `or ""` in the loop) never satisfies
the gate, and the configured set contains the entries named in the claim. -/
theorem C1_geography_gate :
    ("McFarland" ∈ ALLOWED_CITIES ∧ "DeForest" ∈ ALLOWED_CITIES ∧
      "St Paul" ∈ ALLOWED_CITIES) ∧
    ∀ p d : String,
      geoGate ((extract_city p).getD "") ((extract_city d).getD "") = true ↔
        ((∃ c, extract_city p = some c ∧ c ∈ ALLOWED_CITIES) ∨
         (∃ c, extract_city d = some c ∧ c ∈ ALLOWED_CITIES)) := by
  refine ⟨by decide, ?_⟩
  intro p d
  have hempty : ("" ∈ ALLOWED_CITIES) = False := by simp [ALLOWED_CITIES]
  cases hp : extract_city p <;> cases hd : extract_city d <;>
    simp [geoGate, hempty]

/-- `C2` counterexample: the state token is not matched fully
case-insensitively; a lower-case first letter never matches, so the line
`"madison wi 53703"` yields no city at all, where the claim promises the
candidate `"Madison"`. -/
theorem C2_counterexample : extract_city "madison wi 53703" = none := by decide

/-- `C2` amended: `extract_city` scans lines bottom-up against
`^(.*)\s+(W[Ii]|M[Nn]|I[Ll])\b`; the state token's first letter must be
upper case and only its second letter is case-insensitive.  So
`"Madison Wi 53703"` and `"MADISON WI 53703"` (and a lower-case city with an
upper-case token) yield the title-cased free-text portion, while
`"madison wi 53703"` yields no candidate. -/
theorem C2_state_token_case :
    extract_city "Madison Wi 53703" = some "Madison" ∧
    extract_city "MADISON WI 53703" = some "Madison" ∧
    extract_city "madison WI 53703" = some "Madison" ∧
    extract_city "St Paul Mn 55101" = some "St Paul" ∧
    extract_city "Chicago Il 60601" = some "Chicago" ∧
    extract_city "madison wi 53703" = none := by
  refine ⟨by decide, by decide, by decide, by decide, by decide, by decide⟩

theorem rowToTrip_some (cells : List String) (t : RowTrip)
    (h : rowToTrip cells = some t) :
    5 ≤ cells.length ∧
      parse_miles (pyStrip (cells.getD 4 "")) = some t.miles := by
  unfold rowToTrip at h
  split at h
  · exact absurd h (by simp)
  · rename_i hlen
    split at h
    · exact absurd h (by simp)
    · rename_i m hm
      injection h with h2
      subst h2
      exact ⟨by omega, hm⟩

theorem readLoop_mem (n : Nat) (rows : List (List String)) (t : RowTrip)
    (h : t ∈ readLoop n rows) :
    ∃ cells ∈ rows, rowToTrip cells = some t := by
  induction rows generalizing n with
  | nil => cases n <;> simp [readLoop] at h
  | cons r rs ih =>
    cases n with
    | zero => simp [readLoop] at h
    | succ n2 =>
      rw [readLoop] at h
      cases hr : rowToTrip r with
      | none =>
        rw [hr] at h
        obtain ⟨cells, hc, hct⟩ := ih n2 h
        exact ⟨cells, List.mem_cons_of_mem r hc, hct⟩
      | some t0 =>
        rw [hr] at h
        rcases List.mem_cons.mp h with h2 | h2
        · subst h2
          exact ⟨r, List.mem_cons_self r rs, hr⟩
        · obtain ⟨cells, hc, hct⟩ := ih n2 h2
          exact ⟨cells, List.mem_cons_of_mem r hc, hct⟩

/-- `C3` counterexample: Python `float` accepts negative numbers and the
extractor only rejects a failed parse, so a row whose distance cell is
`"-5"` becomes a TripRecord with negative miles, contradicting the
non-negativity part of the claim. -/
theorem C3_counterexample :
    read_trips_from_table [["8:00 AM", "9:00 AM", "A", "B", "-5"]] =
      [⟨"8:00 AM", "9:00 AM", "A", "B", -5⟩] ∧ ((-5 : ℚ) < 0) := by
  exact ⟨by decide, by decide⟩

/-- `C3` amended: every TripRecord's miles field is a successfully parsed
number — each emitted record comes from a row with at least 5 cells whose
distance cell `parse_miles`-parses to exactly that value, and unparseable
rows are dropped — but the parse may yield a negative number, so the
non-negativity part of the claim does not hold. -/
theorem C3_miles_parsed :
    ∀ (rows : List (List String)) (t : RowTrip),
      t ∈ read_trips_from_table rows →
      ∃ cells ∈ rows, 5 ≤ cells.length ∧
        parse_miles (pyStrip (cells.getD 4 "")) = some t.miles := by
  intro rows t h
  obtain ⟨cells, hc, hct⟩ := readLoop_mem 200 rows t h
  obtain ⟨h5, hp⟩ := rowToTrip_some cells t hct
  exact ⟨cells, hc, h5, hp⟩

/-- Witness for `C3` on a one-row snapshot with distance `"12.5"`. -/
theorem C3_miles_parsed_witness :
    ∃ cells ∈ [["8:00 AM", "9:00 AM", "A", "B", "12.5"]], 5 ≤ cells.length ∧
      parse_miles (pyStrip (cells.getD 4 "")) =
        some (RowTrip.miles ⟨"8:00 AM", "9:00 AM", "A", "B", mkRat 25 2⟩) :=
  C3_miles_parsed [["8:00 AM", "9:00 AM", "A", "B", "12.5"]]
    ⟨"8:00 AM", "9:00 AM", "A", "B", mkRat 25 2⟩ (by decide)

theorem readLoop_filterMap (rows : List (List String)) (n : Nat)
    (h : rows.length ≤ n) : readLoop n rows = rows.filterMap rowToTrip := by
  induction rows generalizing n with
  | nil => cases n <;> simp [readLoop]
  | cons r rs ih =>
    cases n with
    | zero => simp at h
    | succ n2 =>
      rw [readLoop]
      cases hr : rowToTrip r with
      | none => simp [List.filterMap_cons, hr, ih n2 (by simpa using h)]
      | some t0 => simp [List.filterMap_cons, hr, ih n2 (by simpa using h)]

/-- `C8` counterexample: the row loop caps processing at the first 200 rows
(`range(min(rows.count(), 200))`), so on a 201-row snapshot whose only
well-formed row is the last one, extraction returns nothing even though the
row parses — the output is not "exactly the records of the well-formed
rows". -/
theorem C8_counterexample :
    read_trips_from_table
        (List.replicate 200 [] ++ [["8:00 AM", "9:00 AM", "A", "B", "40"]]) =
      [] ∧
    rowToTrip ["8:00 AM", "9:00 AM", "A", "B", "40"] =
      some ⟨"8:00 AM", "9:00 AM", "A", "B", 40⟩ := by
  exact ⟨by decide, by decide⟩

/-- `C8` amended: for snapshots of at most 200 rows, extraction is total
and equals the in-order `filterMap` of the per-row extractor: a row with
fewer than 5 cells yields no record, a row whose distance cell fails to
parse (such as `"N/A"`) yields no record, and the remaining rows are still
processed in original order. -/
theorem C8_extraction_skips :
    (∀ rows : List (List String), rows.length ≤ 200 →
      read_trips_from_table rows = rows.filterMap rowToTrip) ∧
    (∀ cells : List String, cells.length < 5 → rowToTrip cells = none) ∧
    (∀ cells : List String,
      parse_miles (pyStrip (cells.getD 4 "")) = none → rowToTrip cells = none) ∧
    parse_miles "N/A" = none := by
  refine ⟨fun rows h => readLoop_filterMap rows 200 h, ?_, ?_, by decide⟩
  · intro cells h
    simp [rowToTrip, h]
  · intro cells h
    unfold rowToTrip
    split
    · rfl
    · rw [h]

/-- Witness for `C8`: a short row and an `"N/A"` row are skipped while the
well-formed row of the same snapshot is still extracted. -/
theorem C8_extraction_skips_witness :
    read_trips_from_table
        [["a"], ["8:00", "9:00", "P", "Q", "N/A"],
         ["8:00 AM", "9:00 AM", "A", "B", "40"]] =
      [["a"], ["8:00", "9:00", "P", "Q", "N/A"],
       ["8:00 AM", "9:00 AM", "A", "B", "40"]].filterMap rowToTrip ∧
    rowToTrip ["a"] = none ∧
    rowToTrip ["8:00", "9:00", "P", "Q", "N/A"] = none :=
  ⟨C8_extraction_skips.1 _ (by decide),
   C8_extraction_skips.2.1 ["a"] (by decide),
   C8_extraction_skips.2.2.1 ["8:00", "9:00", "P", "Q", "N/A"] (by decide)⟩

/-- Witness for `C10` at concrete inputs: a messy address block and an
all-whitespace string. -/
theorem C10_clean_address_block_idempotent_witness :
    clean_address_block
        (clean_address_block "  123  Main St \n\n Madison  WI 53703 ") =
      clean_address_block "  123  Main St \n\n Madison  WI 53703 " ∧
    clean_address_block " \t \n  " = "" :=
  ⟨C10_clean_address_block_idempotent.1 _,
   C10_clean_address_block_idempotent.2.1 " \t \n  " (by decide)⟩

/-- `C4`: trip fingerprints are deterministic — equal fields and equal
two-decimal formatting of miles (e.g. 40 vs 40.001) give equal
fingerprints, while miles that format differently at two decimals
(40.00 vs 40.01) give different fingerprints on an otherwise identical
trip. -/
theorem C4_fingerprint :
    (∀ (d a p pk dr : String) (m1 m2 : ℚ), fmt2 m1 = fmt2 m2 →
      trip_key d a p pk dr m1 = trip_key d a p pk dr m2) ∧
    trip_key "02/10/2025" "N/A" "8:15 AM" "123 Main St\nMadison WI 53703"
        "456 Oak Ave\nChicago IL 60601" 40 ≠
      trip_key "02/10/2025" "N/A" "8:15 AM" "123 Main St\nMadison WI 53703"
        "456 Oak Ave\nChicago IL 60601" (mkRat 4001 100) := by
  constructor
  · intro d a p pk dr m1 m2 h
    unfold trip_key
    rw [h]
  · decide

/-- Witness for `C4`: miles 40 and 40.001 format identically at two
decimals, so the fingerprints coincide. -/
theorem C4_fingerprint_witness :
    trip_key "02/10/2025" "N/A" "8:15 AM" "A" "B" 40 =
      trip_key "02/10/2025" "N/A" "8:15 AM" "A" "B" (mkRat 40001 1000) :=
  C4_fingerprint.1 "02/10/2025" "N/A" "8:15 AM" "A" "B" 40 (mkRat 40001 1000)
    (by decide)

theorem contains_cons_of (s : List String) (a k : String)
    (h : s.contains k = true) : (a :: s).contains k = true := by
  cases h2 : k == a
  · simpa [List.contains, List.elem, h2] using h
  · simp [List.contains, List.elem, h2]

theorem contains_cons_self (s : List String) (k : String) :
    (k :: s).contains k = true := by
  simp [List.contains, List.elem]

theorem handleTrip_none_iff (d : String) (t : RowTrip) (s : List String) :
    handleTrip d t s = none ↔
      milesGate t.miles = false ∨
      geoGate ((extract_city t.pickup_text).getD "")
        ((extract_city t.dropoff_text).getD "") = false ∨
      s.contains (tKey d t) = true := by
  simp only [handleTrip]
  cases h1 : milesGate t.miles with
  | false => simp [h1]
  | true =>
    cases h2 : geoGate ((extract_city t.pickup_text).getD "")
        ((extract_city t.dropoff_text).getD "") with
    | false => simp [h1, h2]
    | true =>
      cases h3 : s.contains (tKey d t) with
      | false =>
        have h4 : trip_key d (legNorm t.appt_time) (legNorm t.pickup_time)
            t.pickup_text t.dropoff_text t.miles ∉ s := by
          simpa [tKey] using h3
        simp [h1, h2, tKey, h3, h4]
      | true =>
        have h4 : trip_key d (legNorm t.appt_time) (legNorm t.pickup_time)
            t.pickup_text t.dropoff_text t.miles ∈ s := by
          simpa [tKey] using h3
        simp [h1, h2, tKey, h3, h4]

theorem handleTrip_some_key (d : String) (t : RowTrip) (s : List String)
    (km : String × String) (h : handleTrip d t s = some km) :
    km.1 = tKey d t := by
  simp only [handleTrip] at h
  split at h
  · exact absurd h (by simp)
  · split at h
    · exact absurd h (by simp)
    · split at h
      · exact absurd h (by simp)
      · injection h with h2
        rw [← h2]
        rfl

theorem pipeRun_seen_mono (d : String) (ts : List RowTrip) :
    ∀ (seen : List String) (fails : List Bool) (k : String),
      seen.contains k = true →
      (pipeRun d ts seen fails).1.contains k = true := by
  induction ts with
  | nil => intro seen fails k hk; simpa [pipeRun] using hk
  | cons t ts ih =>
    intro seen fails k hk
    cases h : handleTrip d t seen with
    | none => simpa [pipeRun, h] using ih seen fails k hk
    | some km =>
      have h2 := ih (km.1 :: seen) fails.tail k (contains_cons_of seen km.1 k hk)
      simpa [pipeRun, h] using h2

theorem pipeRun_twice (d : String) (ts : List RowTrip) :
    ∀ (seen : List String) (f1 f2 : List Bool),
      pipeRun d ts (pipeRun d ts seen f1).1 f2 =
        ((pipeRun d ts seen f1).1, []) := by
  induction ts with
  | nil => intro seen f1 f2; simp [pipeRun]
  | cons t ts ih =>
    intro seen f1 f2
    cases h : handleTrip d t seen with
    | none =>
      have e1 : pipeRun d (t :: ts) seen f1 = pipeRun d ts seen f1 := by
        simp [pipeRun, h]
      have h2 : handleTrip d t (pipeRun d ts seen f1).1 = none := by
        rw [handleTrip_none_iff]
        rcases (handleTrip_none_iff d t seen).mp h with h3 | h3 | h3
        · exact Or.inl h3
        · exact Or.inr (Or.inl h3)
        · exact Or.inr (Or.inr (pipeRun_seen_mono d ts seen f1 _ h3))
      have e2 : pipeRun d (t :: ts) (pipeRun d ts seen f1).1 f2 =
          pipeRun d ts (pipeRun d ts seen f1).1 f2 := by
        simp [pipeRun, h2]
      rw [e1, e2]
      exact ih seen f1 f2
    | some km =>
      have hkey : km.1 = tKey d t := handleTrip_some_key d t seen km h
      have e1 : (pipeRun d (t :: ts) seen f1).1 =
          (pipeRun d ts (km.1 :: seen) f1.tail).1 := by
        simp [pipeRun, h]
      have hmem : (pipeRun d ts (km.1 :: seen) f1.tail).1.contains km.1 = true :=
        pipeRun_seen_mono d ts (km.1 :: seen) f1.tail km.1
          (contains_cons_self seen km.1)
      have h2 : handleTrip d t (pipeRun d ts (km.1 :: seen) f1.tail).1 = none := by
        rw [handleTrip_none_iff]
        exact Or.inr (Or.inr (hkey ▸ hmem))
      rw [e1]
      have e2 : pipeRun d (t :: ts) (pipeRun d ts (km.1 :: seen) f1.tail).1 f2 =
          pipeRun d ts (pipeRun d ts (km.1 :: seen) f1.tail).1 f2 := by
        simp [pipeRun, h2]
      rw [e2]
      exact ih (km.1 :: seen) f1.tail f2

theorem pipeRun_marks_in_seen (d : String) (ts : List RowTrip) :
    ∀ (seen : List String) (fails : List Bool) (k : String),
      Ev.mark k ∈ (pipeRun d ts seen fails).2 →
      (pipeRun d ts seen fails).1.contains k = true := by
  induction ts with
  | nil => intro seen fails k hk; simp [pipeRun] at hk
  | cons t ts ih =>
    intro seen fails k hk
    cases h : handleTrip d t seen with
    | none =>
      have e1 : pipeRun d (t :: ts) seen fails = pipeRun d ts seen fails := by
        simp [pipeRun, h]
      rw [e1] at hk ⊢
      exact ih seen fails k hk
    | some km =>
      have e1 : pipeRun d (t :: ts) seen fails =
          ((pipeRun d ts (km.1 :: seen) fails.tail).1,
           Ev.mark km.1 :: Ev.dispatch km.2 (!(fails.headD false)) ::
             (pipeRun d ts (km.1 :: seen) fails.tail).2) := by
        simp [pipeRun, h]
      rw [e1] at hk ⊢
      simp only [List.mem_cons] at hk
      rcases hk with hk | hk | hk
      · injection hk with h2
        subst h2
        exact pipeRun_seen_mono d ts (km.1 :: seen) fails.tail km.1
          (contains_cons_self seen km.1)
      · exact absurd hk (by simp)
      · exact ih (km.1 :: seen) fails.tail k hk

/-- `C5`: running the per-date pipeline twice on the identical snapshot for
the identical date, starting from an empty ledger, dispatches notifications
only in the first run: the second run produces no events and leaves the
ledger unchanged, and every fingerprint marked in the first run is in the
ledger the second run consults. -/
theorem C5_pipeline_idempotent :
    ∀ (d : String) (rows : List (List String)) (f1 f2 : List Bool),
      (processDate d rows (processDate d rows [] f1).1 f2).2 = [] ∧
      (processDate d rows (processDate d rows [] f1).1 f2).1 =
        (processDate d rows [] f1).1 ∧
      ∀ k : String, Ev.mark k ∈ (processDate d rows [] f1).2 →
        (processDate d rows [] f1).1.contains k = true := by
  intro d rows f1 f2
  refine ⟨?_, ?_, ?_⟩
  · have h := congrArg Prod.snd
      (pipeRun_twice d (read_trips_from_table rows) [] f1 f2)
    simpa [processDate] using h
  · have h := congrArg Prod.fst
      (pipeRun_twice d (read_trips_from_table rows) [] f1 f2)
    simpa [processDate] using h
  · intro k hk
    exact pipeRun_marks_in_seen d (read_trips_from_table rows) [] f1 k hk

/-- Witness for `C5`: a one-row qualifying snapshot run twice — the second
run is silent, and the concrete fingerprint marked in the first run is in
the resulting ledger. -/
theorem C5_pipeline_idempotent_witness :
    (processDate "02/10/2025"
        [["8:00 AM", "9:00 AM", "123 Main St\nMadison WI 53703",
          "456 Oak Ave\nChicago IL 60601", "40.00"]]
        (processDate "02/10/2025"
          [["8:00 AM", "9:00 AM", "123 Main St\nMadison WI 53703",
            "456 Oak Ave\nChicago IL 60601", "40.00"]] [] []).1 []).2 = [] ∧
    (processDate "02/10/2025"
        [["8:00 AM", "9:00 AM", "123 Main St\nMadison WI 53703",
          "456 Oak Ave\nChicago IL 60601", "40.00"]] [] []).1.contains
      "a6dcdb8eb9a2ba1df99c89d1b73346f11d6ec81ddb9c2eab349c36b88587025c" =
      true :=
  ⟨(C5_pipeline_idempotent "02/10/2025"
      [["8:00 AM", "9:00 AM", "123 Main St\nMadison WI 53703",
        "456 Oak Ave\nChicago IL 60601", "40.00"]] [] []).1,
   (C5_pipeline_idempotent "02/10/2025"
      [["8:00 AM", "9:00 AM", "123 Main St\nMadison WI 53703",
        "456 Oak Ave\nChicago IL 60601", "40.00"]] [] []).2.2
     "a6dcdb8eb9a2ba1df99c89d1b73346f11d6ec81ddb9c2eab349c36b88587025c"
     (by decide)⟩

/-- `C9`: the ledger and the attempted events are independent of dispatch
outcomes (a failed send neither rolls back the ledger nor stops later
trips), and the trace decomposes into per-trip blocks in which the
fingerprint is marked immediately before its dispatch is attempted, every
marked fingerprint remaining in the final ledger. -/
theorem C9_mark_before_dispatch :
    ∀ (d : String) (ts : List RowTrip) (seen : List String) (f g : List Bool),
      (pipeRun d ts seen f).1 = (pipeRun d ts seen g).1 ∧
      (pipeRun d ts seen f).2.map evForget =
        (pipeRun d ts seen g).2.map evForget ∧
      ∃ l : List (String × String × Bool),
        (pipeRun d ts seen f).2 = evBlocks l ∧
        ∀ e ∈ l, (pipeRun d ts seen f).1.contains e.1 = true := by
  intro d ts seen f g
  induction ts generalizing seen f g with
  | nil => exact ⟨rfl, rfl, [], rfl, by simp⟩
  | cons t ts ih =>
    cases h : handleTrip d t seen with
    | none =>
      have e1 : ∀ fl : List Bool,
          pipeRun d (t :: ts) seen fl = pipeRun d ts seen fl := by
        intro fl; simp [pipeRun, h]
      rw [e1 f, e1 g]
      exact ih seen f g
    | some km =>
      have e1 : ∀ fl : List Bool, pipeRun d (t :: ts) seen fl =
          ((pipeRun d ts (km.1 :: seen) fl.tail).1,
           Ev.mark km.1 :: Ev.dispatch km.2 (!(fl.headD false)) ::
             (pipeRun d ts (km.1 :: seen) fl.tail).2) := by
        intro fl; simp [pipeRun, h]
      rw [e1 f, e1 g]
      obtain ⟨h1, h2, l, hl, hmem⟩ := ih (km.1 :: seen) f.tail g.tail
      refine ⟨h1, ?_, (km.1, km.2, !(f.headD false)) :: l, ?_, ?_⟩
      · simp [evForget, h2]
      · simp [evBlocks, hl]
      · intro e he
        rcases List.mem_cons.mp he with he | he
        · subst he
          exact pipeRun_seen_mono d ts (km.1 :: seen) f.tail km.1
            (contains_cons_self seen km.1)
        · exact hmem e he

/-- Witness for `C9`: a concrete qualifying trip run once with a failing
dispatch and once with a succeeding one. -/
theorem C9_mark_before_dispatch_witness :
    (pipeRun "02/10/2025" [⟨"8:00 AM", "9:00 AM",
        "123 Main St\nMadison WI 53703", "456 Oak Ave\nChicago IL 60601",
        40⟩] [] [true]).1 =
      (pipeRun "02/10/2025" [⟨"8:00 AM", "9:00 AM",
        "123 Main St\nMadison WI 53703", "456 Oak Ave\nChicago IL 60601",
        40⟩] [] []).1 ∧
    (pipeRun "02/10/2025" [⟨"8:00 AM", "9:00 AM",
        "123 Main St\nMadison WI 53703", "456 Oak Ave\nChicago IL 60601",
        40⟩] [] [true]).2.map evForget =
      (pipeRun "02/10/2025" [⟨"8:00 AM", "9:00 AM",
        "123 Main St\nMadison WI 53703", "456 Oak Ave\nChicago IL 60601",
        40⟩] [] []).2.map evForget ∧
    ∃ l : List (String × String × Bool),
      (pipeRun "02/10/2025" [⟨"8:00 AM", "9:00 AM",
          "123 Main St\nMadison WI 53703", "456 Oak Ave\nChicago IL 60601",
          40⟩] [] [true]).2 = evBlocks l ∧
      ∀ e ∈ l,
        (pipeRun "02/10/2025" [⟨"8:00 AM", "9:00 AM",
            "123 Main St\nMadison WI 53703", "456 Oak Ave\nChicago IL 60601",
            40⟩] [] [true]).1.contains e.1 = true :=
  C9_mark_before_dispatch "02/10/2025" [⟨"8:00 AM", "9:00 AM",
    "123 Main St\nMadison WI 53703", "456 Oak Ave\nChicago IL 60601", 40⟩]
    [] [true] []

end MTM
